import Mathlib

set_option maxHeartbeats 1000000

/-!
Verification development for `scripts/build_data.py`, an ETL pipeline that
normalizes pharmacy dispensing records, classifies line items against a fixed
table of critical-supply regex patterns, resolves heterogeneous column headers,
cleans identifier codes, merges reference lookups and aggregates KPI windows.

The Python functions are shallowly embedded as executable Lean functions over
`List Char` / `String`.  Unicode-dependent primitives used by `_norm_text`
(`str.lower`, NFKD decomposition, combining-mark classification and the
whitespace classes) are passed as explicit parameters (`UParams`); theorems
about them assume only the standard facts those primitives satisfy on the
ASCII output alphabet `[a-z0-9 ]`.  Regular expressions are embedded as an
inductive syntax with word-boundary assertions and matched with contextual
Brzozowski derivatives; the word/space character classes are the ASCII
fragments of Python's, which coincide with Python's classes on the normalized
(ASCII) strings the classifier receives.  The numeric parse done by
`pd.to_numeric` is treated as a collaborator: the cleaner is parameterized
by it (`_clean_code_with`), every finite machine value it can return
(int64, uint64 or float64) is represented in the signed dyadic form
`±sf·2^g`, and the universal cleaner theorem quantifies over the
collaborator, so float64 rounding and scientific notation are covered; an
exact-decimal fragment (`parseDec`) instantiates it for concrete
evaluation at inputs where the two coincide.  pandas' `astype(str)`
rendering of missing values as `"nan"` is modelled by `astypeStr`.
-/

/-! ## Character classes -/

/-- ASCII decimal digit. -/
def isDigitCh (c : Char) : Bool := '0' ≤ c && c ≤ '9'

/-- ASCII lowercase letter. -/
def isLowerCh (c : Char) : Bool := 'a' ≤ c && c ≤ 'z'

/-- Characters kept verbatim by the `[^a-z0-9\s]+` substitution in `_norm_text`. -/
def isLowerAlnum (c : Char) : Bool := isLowerCh c || isDigitCh c

/-- ASCII fragment of Python's whitespace class (`str.strip` / regex `\s`). -/
def pySpaceB (c : Char) : Bool :=
  c = ' ' || c = '\t' || c = '\n' || c = '\r' || c.toNat = 11 || c.toNat = 12

/-- ASCII fragment of Python's regex word class `\w`, used by `\b`. -/
def pyWordB (c : Char) : Bool :=
  isLowerAlnum c || ('A' ≤ c && c ≤ 'Z') || c = '_'

/-! ## Generic string helpers -/

/-- Drop matching characters from the end of a list. -/
def dropEnd (p : Char → Bool) (l : List Char) : List Char :=
  (l.reverse.dropWhile p).reverse

/-- Python `str.strip` with an explicit whitespace class `p`. -/
def stripWith (p : Char → Bool) (l : List Char) : List Char :=
  dropEnd p (l.dropWhile p)

/-- Replace every maximal run of characters satisfying `p` by a single `' '`.
`inRun` records whether the previous character was part of a run.  This is
`re.sub(cls ++ "+", " ", s)` for a character class `cls`. -/
def subRuns (p : Char → Bool) : Bool → List Char → List Char
  | _, [] => []
  | inRun, c :: cs =>
    if p c then (if inRun then subRuns p true cs else ' ' :: subRuns p true cs)
    else c :: subRuns p false cs

/-! ## Text Normalizer (`_norm_text`, build_data.py lines 17-25) -/

/-- Unicode primitives `_norm_text` depends on: `str.lower`, NFKD
decomposition, `unicodedata.combining`, the `str.strip` whitespace class and
the regex `\s` class.  They are parameters so that the embedding does not
have to re-implement the Unicode tables; theorems assume only their standard
behaviour on the ASCII alphabet `[a-z0-9 ]`. -/
structure UParams where
  lower : Char → Char
  nfkd : Char → List Char
  comb : Char → Bool
  sspace : Char → Bool
  rspace : Char → Bool

/-- Characters kept (not replaced by a space) by `re.sub(r"[^a-z0-9\s]+", " ", s)`. -/
def keepCh (U : UParams) (c : Char) : Bool := isLowerAlnum c || U.rspace c

/-- Model of `_norm_text`: strip + lowercase, NFKD-decompose and drop combining marks,
replace runs outside `[a-z0-9\s]` by a space, collapse whitespace runs to a
single space and strip.  (The `s is None` branch of the Python function
returns `""` before any of this and is not part of the string-to-string
contract modelled here.) -/
def _norm_text (U : UParams) (s : List Char) : List Char :=
  let s1 := (stripWith U.sspace s).map U.lower
  let s2 := (s1.flatMap U.nfkd).filter (fun c => ! U.comb c)
  let s3 := subRuns (fun c => ! keepCh U c) false s2
  stripWith U.sspace (subRuns U.rspace false s3)

/-- Concrete instantiation of the Unicode primitives that already satisfies
all the ASCII-alphabet hypotheses: identity lowering and decomposition, no
combining marks, whitespace = `' '`.  Used for concrete witnesses. -/
def asciiU : UParams :=
  { lower := fun c => c
    nfkd := fun c => [c]
    comb := fun _ => false
    sspace := fun c => c = ' '
    rspace := fun c => c = ' ' }

/-- Output alphabet of the normalizer: lowercase ASCII alphanumerics and the
space character. -/
def goodCh (c : Char) : Bool := isLowerAlnum c || c = ' '

/-- No two adjacent space characters. -/
def noDbl : List Char → Bool
  | [] => true
  | [_] => true
  | a :: b :: t => !(a = ' ' && b = ' ') && noDbl (b :: t)

/-! ## Regular expressions with word boundaries -/

/-- Regex syntax: the fragment used by `CRITICAL_PATTERNS` (character
predicates, `\b`, alternation, concatenation, Kleene star). -/
inductive RE where
  | emp : RE
  | eps : RE
  | sym : (Char → Bool) → RE
  | wb : RE
  | alt : RE → RE → RE
  | cat : RE → RE → RE
  | star : RE → RE

/-- Word-character test on an optional neighbouring character; the ends of the
string count as non-word. -/
def isWordOpt (oc : Option Char) : Bool :=
  match oc with
  | none => false
  | some c => pyWordB c

/-- Whether `r` matches the empty string at a position whose neighbouring
characters are `prev` and `next` (needed because `\b` is a zero-width
assertion about both neighbours). -/
def nullAt : RE → Option Char → Option Char → Bool
  | .emp, _, _ => false
  | .eps, _, _ => true
  | .sym _, _, _ => false
  | .wb, prev, next => isWordOpt prev != isWordOpt next
  | .alt r1 r2, p, n => nullAt r1 p n || nullAt r2 p n
  | .cat r1 r2, p, n => nullAt r1 p n && nullAt r2 p n
  | .star _, _, _ => true

/-- Contextual Brzozowski derivative of `r` by the character `c`, where `prev`
is the character before `c` (for `\b`). -/
def derivRE : RE → Option Char → Char → RE
  | .emp, _, _ => .emp
  | .eps, _, _ => .emp
  | .sym f, _, c => if f c then .eps else .emp
  | .wb, _, _ => .emp
  | .alt r1 r2, p, c => .alt (derivRE r1 p c) (derivRE r2 p c)
  | .cat r1 r2, p, c =>
    if nullAt r1 p (some c) then .alt (.cat (derivRE r1 p c) r2) (derivRE r2 p c)
    else .cat (derivRE r1 p c) r2
  | .star r, p, c => .cat (derivRE r p c) (.star r)

/-- Whether `r` matches some prefix of `s`, starting right after `prev`. -/
def matchPre : RE → Option Char → List Char → Bool
  | r, prev, [] => nullAt r prev none
  | r, prev, c :: cs => nullAt r prev (some c) || matchPre (derivRE r prev c) (some c) cs

/-- Scan of `re.search`: try to match a prefix at every start position. -/
def searchFrom : RE → Option Char → List Char → Bool
  | r, prev, [] => matchPre r prev []
  | r, prev, c :: cs => matchPre r prev (c :: cs) || searchFrom r (some c) cs

/-- Python `re.search(pat, s)` viewed as a boolean: unanchored search. -/
def reSearch (r : RE) (s : List Char) : Bool := searchFrom r none s

/-- Single literal character. -/
def chR (c : Char) : RE := .sym (fun x => x = c)

/-- Concatenation of a list of regexes. -/
def seqR (rs : List RE) : RE := rs.foldr RE.cat .eps

/-- Literal word. -/
def strR (w : String) : RE := seqR (w.toList.map chR)

/-- Optional group `(r)?`. -/
def optR (r : RE) : RE := .alt r .eps

/-- Wildcard `.` (any character except newline, Python default). -/
def dotR : RE := .sym (fun c => c ≠ '\n')

/-- Class `\s` (ASCII fragment, see `pySpaceB`). -/
def spR : RE := .sym pySpaceB

/-- Pattern `.*`. -/
def dotStar : RE := .star dotR

/-- Pattern `\s*`. -/
def spStar : RE := .star spR

/-! ## Item Classifier (`CRITICAL_PATTERNS` lines 103-119, `_classify_item` lines 122-127) -/

/-- The ordered critical-pattern table.  Each entry transcribes the Python
regex list of the same label, in declaration order. -/
def CRITICAL_PATTERNS : List (String × List RE) :=
  [ ("ALCOHOL", [seqR [.wb, strR "alcohol", .wb]]),
    ("GUANTES", [seqR [.wb, strR "guante", optR (chR 's'), .wb]]),
    ("SOLUCION FISIOLOGICA",
      [seqR [.wb, strR "solucion", .wb, dotStar, .wb, strR "fisiologic", .alt (chR 'a') (chR 'o'), .wb],
       seqR [.wb, strR "fisiologic", .alt (chR 'a') (chR 'o'), .wb]]),
    ("IOP SOLUCION",
      [seqR [.wb, strR "iop", .wb, dotStar, .wb, strR "solucion", .wb],
       seqR [.wb, strR "iop", .wb, dotStar, .wb, strR "sol", .wb]]),
    ("IOP JABON",
      [seqR [.wb, strR "iop", .wb, dotStar, .wb, strR "jabon", .wb],
       seqR [.wb, strR "iop", .wb, dotStar, .wb, strR "soap", .wb]]),
    ("JERINGA 5ML",
      [seqR [.wb, strR "jeringa", optR (chR 's'), .wb, dotStar, .wb, strR "5", .wb, spStar, strR "ml", .wb],
       seqR [.wb, strR "5", spStar, strR "ml", .wb, dotStar, .wb, strR "jeringa", .wb]]),
    ("JERINGA 10ML",
      [seqR [.wb, strR "jeringa", optR (chR 's'), .wb, dotStar, .wb, strR "10", .wb, spStar, strR "ml", .wb],
       seqR [.wb, strR "10", spStar, strR "ml", .wb, dotStar, .wb, strR "jeringa", .wb]]),
    ("ALGODON", [seqR [.wb, strR "algodon", .wb]]),
    ("MACROGOTERO",
      [seqR [.wb, strR "macrogotero", .wb],
       seqR [.wb, strR "macro", .wb, dotStar, .wb, strR "gote", optR (strR "ro"), .wb]]),
    ("MICROGOTERO",
      [seqR [.wb, strR "microgotero", .wb],
       seqR [.wb, strR "micro", .wb, dotStar, .wb, strR "gote", optR (strR "ro"), .wb]]),
    ("VOLUTROL", [seqR [.wb, strR "volutrol", .wb]]),
    ("CLORHEXIDINA",
      [seqR [.wb, strR "clorhexidina", .wb],
       seqR [.wb, strR "chlorhexidine", .wb]]),
    ("PUNZOCATH 18",
      [seqR [.wb, strR "punzocath", .wb, dotStar, .wb, strR "18", .wb],
       seqR [.wb, strR "punzo", .wb, dotStar, .wb, strR "18", .wb]]),
    ("PUNZOCATH 20",
      [seqR [.wb, strR "punzocath", .wb, dotStar, .wb, strR "20", .wb],
       seqR [.wb, strR "punzo", .wb, dotStar, .wb, strR "20", .wb]]),
    ("PUNZOCATH 22",
      [seqR [.wb, strR "punzocath", .wb, dotStar, .wb, strR "22", .wb],
       seqR [.wb, strR "punzo", .wb, dotStar, .wb, strR "22", .wb]]) ]

/-- Whether any pattern of a table entry matches `s` (the inner loop of
`_classify_item`). -/
def labelMatches (e : String × List RE) (s : List Char) : Bool :=
  e.2.any (fun p => reSearch p s)

/-- Outer loop of `_classify_item` over an arbitrary table. -/
def classifyAux : List (String × List RE) → List Char → Option String
  | [], _ => none
  | e :: rest, s => if labelMatches e s then some e.1 else classifyAux rest s

/-- Model of `_classify_item`: first label in declaration order with a matching
pattern, else `none`. -/
def _classify_item (s : List Char) : Option String :=
  classifyAux CRITICAL_PATTERNS s

/-! ## Column Resolver (`_find_col` lines 70-76, `DEFAULT_SYNONYMS` lines 91-100,
`infer_column_map` lines 130-147) -/

/-- ASCII uppercase of one character (fragment of Python `str.upper`). -/
def upCh (c : Char) : Char :=
  if 'a' ≤ c ∧ c ≤ 'z' then Char.ofNat (c.toNat - 32) else c

/-- Python `str.upper` (ASCII fragment; the alias tables and header
comparisons only rely on ASCII case folding). -/
def pyUpper (s : String) : String := String.mk (s.toList.map upCh)

/-- The dict comprehension `up = {c.upper(): c for c in cols}` followed by
`up[k]`: the last column whose uppercasing is `k` (later duplicates win). -/
def upLookup (cols : List String) (k : String) : Option String :=
  (cols.filter (fun c => (pyUpper c) = k)).getLast?

/-- Model of `_find_col`: first candidate alias having a case-insensitive exact match
among the observed headers. -/
def _find_col (cols cands : List String) : Option String :=
  cands.findSome? (fun cand => upLookup cols (pyUpper cand))

/-- The `DEFAULT_SYNONYMS` table, in source order. -/
def DEFAULT_SYNONYMS : List (String × List String) :=
  [ ("FECHA", ["FECHA", "FECHA_RECETA", "FEC_RECETA", "FEC_EMI", "FECHA_EMISION", "DATE"]),
    ("COD_PROD", ["COD_PRODUCTO", "COD_PROD", "COD_MEDICAMENTO", "CODIGO_PRODUCTO", "COD_ITEM", "ITEM", "COD", "MAXCOD"]),
    ("CANTIDAD", ["CANTIDAD", "CANT", "QTY", "CANT_SOL", "CANT_ENT", "CANT_DISP", "CANTIDAD_ENTREGADA"]),
    ("ALMACEN", ["ALMACEN", "DEPOSITO", "FARMACIA", "BODEGA", "ALM", "ALMACEN_ORIGEN", "ALMACEN_DESTINO", "COD_ALMACEN", "ALMACEN_CODIGO"]),
    ("SERVICIO", ["SERVICIO", "DEPENDENCIA", "UNIDAD", "SECTOR", "AREA", "SALA"]),
    ("COD_MEDICO", ["COD_MEDICO", "COD_PROF", "COD_PRESCRIPTOR", "ID_MEDICO", "MEDICO_COD", "CÓDIGO_DEL_MÉDICO", "CODIGO_DEL_MEDICO"]),
    ("ID_PACIENTE", ["CEDULA", "CI", "NRO_DOC", "DOCUMENTO", "PACIENTE_CI", "ID_PACIENTE", "CÉDULAPACIENTE", "CEDULAPACIENTE"]),
    ("DESC_PROD", ["DESC_PRODUCTO", "DESCRIPCION", "PRODUCTO", "NOMBRE_PRODUCTO", "ITEM_DESC", "MEDICAMENTO", "TEXTOBREVEMEDICAMENTO"]) ]

/-- Alias list of a logical field (`DEFAULT_SYNONYMS[k]`). -/
def synOf (k : String) : List String :=
  ((DEFAULT_SYNONYMS.find? (fun p => p.1 = k)).map (fun p => p.2)).getD []

/-- Resolved column map (`ColumnMap` dataclass, lines 79-88). -/
structure ColumnMap where
  fecha : String
  cod_prod : String
  cantidad : String
  almacen : Option String
  servicio : Option String
  cod_medico : Option String
  id_paciente : Option String
  desc_prod : Option String
deriving DecidableEq, Repr

/-- The `missing` list built before raising: required field names (in the
fixed order FECHA, COD_PROD, CANTIDAD) whose resolution failed. -/
def missingReq (cols : List String) : List String :=
  (([("FECHA", _find_col cols (synOf "FECHA")),
     ("COD_PROD", _find_col cols (synOf "COD_PROD")),
     ("CANTIDAD", _find_col cols (synOf "CANTIDAD"))].filter
       (fun kv => kv.2.isNone)).map Prod.fst)

/-- Model of `infer_column_map`: resolve the three required and five optional logical
fields; error value carries the missing required field names and the full
observed header list (the payload of the raised `ValueError`). -/
def infer_column_map (cols : List String) :
    Except (List String × List String) ColumnMap :=
  match _find_col cols (synOf "FECHA"), _find_col cols (synOf "COD_PROD"),
        _find_col cols (synOf "CANTIDAD") with
  | some f, some c, some q =>
    .ok ⟨f, c, q,
         _find_col cols (synOf "ALMACEN"), _find_col cols (synOf "SERVICIO"),
         _find_col cols (synOf "COD_MEDICO"), _find_col cols (synOf "ID_PACIENTE"),
         _find_col cols (synOf "DESC_PROD")⟩
  | _, _, _ => .error (missingReq cols, cols)

/-- Spec-side formulation: required fields with no observed header matching
any alias case-insensitively. -/
def unresolvedReq (cols : List String) : List String :=
  ["FECHA", "COD_PROD", "CANTIDAD"].filter
    (fun f => ! cols.any (fun h => (synOf f).any (fun a => (pyUpper h) = (pyUpper a))))

/-! ## Code Cleaner (`_clean_code_str`, lines 55-67) -/

/-- pandas `astype(str)` on a cell: missing values (NaN) render as `"nan"`. -/
def astypeStr (cell : Option String) : String :=
  match cell with
  | none => "nan"
  | some s => s

/-- Python `str.replace(",", ".")`. -/
def commaToDot (l : List Char) : List Char :=
  l.map (fun c => if c = ',' then '.' else c)

/-- Step `re.sub(r"^\.", "0.", s)`: prefix a zero if the string starts with a dot. -/
def dotZeroPre (l : List Char) : List Char :=
  match l with
  | '.' :: t => '0' :: '.' :: t
  | t => t

/-- Numeric value of a digit string. -/
def digitsVal (ds : List Char) : Nat :=
  ds.foldl (fun a c => a * 10 + (c.toNat - 48)) 0

/-- Exact-decimal fragment of the numeric-parse collaborator, used only to
evaluate this development's concrete examples: parses plain decimal literals
`[+-]? digits [. digits]` (at least one digit) and returns the sign and the
toward-zero integer part of the value - the only component of a parsed value
the cleaner ever consumes (see `pdTrunc`).  The real collaborator
`pd.to_numeric` additionally accepts scientific notation and parses through
int64/uint64/float64 machine types, rounding large mantissas; those
behaviors enter the development through the collaborator parameter of
`_clean_code_with` and the universal statement of claim C4, never through
this fragment, which is applied only at inputs on which it coincides with
the program (small exact decimals and parse failures). -/
def parseDec (l : List Char) : Option (Bool × Nat) :=
  let (neg, l1) :=
    match l with
    | '-' :: t => (true, t)
    | '+' :: t => (false, t)
    | t => (false, t)
  let ds := l1.takeWhile isDigitCh
  let r1 := l1.dropWhile isDigitCh
  match r1 with
  | [] => if ds.isEmpty then none else some (neg, digitsVal ds)
  | '.' :: r2 =>
    let fs := r2.takeWhile isDigitCh
    let r3 := r2.dropWhile isDigitCh
    if r3.isEmpty && !(ds.isEmpty && fs.isEmpty) then some (neg, digitsVal ds) else none
  | _ => none

/-- Decimal digits of `n`, most significant first (`fuel`-guarded division
loop; `fuel = n + 1` always suffices). -/
def natDecAux : Nat → Nat → List Char → List Char
  | 0, _, acc => acc
  | fuel + 1, n, acc =>
    if n < 10 then Nat.digitChar n :: acc
    else natDecAux fuel (n / 10) (Nat.digitChar (n % 10) :: acc)

/-- Decimal rendering of a natural number. -/
def natDec (n : Nat) : List Char := natDecAux (n + 1) n []

/-- Python `str(int(v))` for a parsed value with sign `neg` and integer part
`ip` (`int` truncates toward zero, and `-0` renders as `"0"`). -/
def intRepr (neg : Bool) (ip : Nat) : List Char :=
  if neg && !(ip = 0) then '-' :: natDec ip else natDec ip

/-- Step `re.sub(r"\.0+$", "", s)`: strip a trailing dot-plus-zeros suffix. -/
def stripDotZeros (l : List Char) : List Char :=
  let r := l.reverse
  let zs := r.takeWhile (fun c => c = '0')
  let r2 := r.dropWhile (fun c => c = '0')
  match r2 with
  | '.' :: t => if zs.isEmpty then l else t.reverse
  | _ => l

/-- The preprocessed string handed to `pd.to_numeric`: render, strip, swap
comma for dot, prefix a zero before a leading dot. -/
def cleanPre (cell : Option String) : List Char :=
  dotZeroPre (commaToDot (stripWith pySpaceB (astypeStr cell).toList))

/-- Python `int(v)` (truncation toward zero) of the magnitude of a finite
machine numeric value `±sf·2^g`.  Every finite value `pd.to_numeric` can
produce has this dyadic form: an int64/uint64 result is `n·2^0`, and a
float64 result is a 53-bit significand times a power of two. -/
def pdTrunc (sf : Nat) (g : Int) : Nat :=
  if 0 ≤ g then sf * 2 ^ g.toNat else sf / 2 ^ (-g).toNat

/-- Model of `_clean_code_str` on one cell, parameterized by the
numeric-parse collaborator `toNum` (`pd.to_numeric(s, errors="coerce")`
followed by reading off the finite machine value as a signed dyadic
`±sf·2^g`): parse success yields `str(int(v))`; failure - which in the
program also covers a NaN parse, since `pd.isna` sends both to the same
branch - yields `""`, which the `where` step swaps back to the sanitized
original; finally the `\.0+$` suffix is stripped.  A parse yielding
`±infinity` (overflowing input such as `"1e999"`) makes the program raise
OverflowError inside `str(int(v))` before producing any output and is
outside this per-cell model. -/
def _clean_code_with (toNum : List Char → Option (Bool × Nat × Int))
    (cell : Option String) : List Char :=
  let s := cleanPre cell
  let out :=
    match toNum s with
    | some (neg, sf, g) => intRepr neg (pdTrunc sf g)
    | none => []
  let out := if out.isEmpty then s else out
  stripDotZeros out

/-- The exact-decimal fragment packaged as a collaborator instance: its
toward-zero integer part `ip` is the dyadic value `ip·2^0`. -/
def parseDecVal (l : List Char) : Option (Bool × Nat × Int) :=
  (parseDec l).map (fun p => (p.1, p.2, 0))

/-- Model of `_clean_code_str` (lines 55-67), instantiated with the
exact-decimal collaborator fragment for concrete evaluation. -/
def _clean_code_str (cell : Option String) : List Char :=
  _clean_code_with parseDecVal cell

/-! ## Numeric Coercer (`_coerce_numeric`, lines 46-52) -/

/-- Model of `_coerce_numeric` on one cell: swap comma for dot, strip everything but
digits, dot and minus, then numeric parse with coercion to missing. -/
def _coerce_numeric (cell : Option String) : Option (Bool × Nat) :=
  parseDec ((commaToDot (astypeStr cell).toList).filter
    (fun c => isDigitCh c || c = '.' || c = '-'))

/-! ## Lookup dictionaries and the recurrent-patient merge (lines 180-190) -/

/-- Python dict lookup on an insertion-ordered association list. -/
def dget (d : List (String × String)) (k : String) : Option String :=
  (d.find? (fun p => p.1 = k)).map (fun p => p.2)

/-- Python dict insert/update: update the bound entry in place, else append. -/
def dput (d : List (String × String)) (k v : String) : List (String × String) :=
  if d.any (fun p => p.1 = k) then
    d.map (fun p => if p.1 = k then (k, v) else p)
  else d ++ [(k, v)]

/-- Python `dict(zip(key, val))`: build a dict from pairs, later duplicates winning. -/
def dictOfPairs (ps : List (String × String)) : List (String × String) :=
  ps.foldl (fun d p => dput d p.1 p.2) []

/-- One step of the supplementary merge loop:
`if k and (k not in pac or not pac[k]): pac[k] = v`. -/
def fillStep (d : List (String × String)) (p : String × String) : List (String × String) :=
  if p.1 ≠ "" ∧ (dget d p.1 = none ∨ dget d p.1 = some "") then dput d p.1 p.2 else d

/-- The supplementary merge: fold the merge step over the recurrent file's
dict (lines 186-190). -/
def fillRecurrentes (pac recs : List (String × String)) : List (String × String) :=
  (dictOfPairs recs).foldl fillStep pac

/-! ## Per-row enrichment and filtering (`main`, lines 274-296) -/

/-- One input row after column renaming: the three required and five optional
cells, each possibly missing. -/
structure RawRow where
  fecha : Option String
  cod_prod : Option String
  cantidad : Option String
  almacen : Option String
  servicio : Option String
  cod_medico : Option String
  id_paciente : Option String
  desc_prod : Option String
deriving DecidableEq, Repr

/-- External collaborators of the row pipeline: the Unicode primitives, the
date parser (`pd.to_datetime(_, errors="coerce")`, day number as `Int`) and
the product lookup map. -/
structure RowParams where
  U : UParams
  dateParse : String → Option Int
  prod_lookup : List (String × String)

/-- Column `NOMBRE_PROD`: product-lookup display name for the cleaned code, falling
back to `str(DESC_PROD)` (line 282-283). -/
def nombreProd (P : RowParams) (r : RawRow) : String :=
  match dget P.prod_lookup (String.mk (_clean_code_str r.cod_prod)) with
  | some v => v
  | none => astypeStr r.desc_prod

/-- Column `ITEM_CRITICO`: classify the normalized product name (lines 284-285). -/
def itemCritico (P : RowParams) (r : RawRow) : Option String :=
  _classify_item (_norm_text P.U (nombreProd P r).toList)

/-- Parsed `FECHA` (line 274); a missing cell is NaT. -/
def fechaParsed (P : RowParams) (r : RawRow) : Option Int :=
  r.fecha.bind P.dateParse

/-- A row survives `dropna(subset=["FECHA"])` and the `ITEM_CRITICO.notna()`
filter (lines 291-292). -/
def keepRow (P : RowParams) (r : RawRow) : Bool :=
  (fechaParsed P r).isSome && (itemCritico P r).isSome

/-- The rows of one batch surviving into the unified record set. -/
def survivors (P : RowParams) (rows : List RawRow) : List RawRow :=
  rows.filter (keepRow P)

/-! ## KPI windows (`main`, lines 327-355) -/

/-- One record of the unified, filtered record set: item label, day number
and the coerced quantity (missing when `_coerce_numeric` failed). -/
structure DataRow where
  item : String
  day : Int
  qty : Option ℚ
deriving DecidableEq

/-- Step `data["FECHA_DIA"].max()`: maximum observed day. -/
def maxDay (data : List DataRow) : Int :=
  match data with
  | [] => 0
  | r :: t => t.foldl (fun m x => max m x.day) r.day

/-- pandas column sum: missing quantities are skipped. -/
def sumQ (rows : List DataRow) : ℚ :=
  rows.foldr (fun r a => r.qty.getD 0 + a) 0

/-- The `between(lo, hi)` filter on days (inclusive on both ends). -/
def windowRows (data : List DataRow) (lo hi : Int) : List DataRow :=
  data.filter (fun r => decide (lo ≤ r.day) && decide (r.day ≤ hi))

/-- Distinct items of a record list, in first-appearance order. -/
def itemsOf (data : List DataRow) : List String :=
  (data.map (fun r => r.item)).dedup

/-- Step `groupby("ITEM_CRITICO").sum()`: per-item quantity sums. -/
def groupSumList (rows : List DataRow) : List (String × ℚ) :=
  (itemsOf rows).map (fun i => (i, sumQ (rows.filter (fun r => r.item = i))))

/-- Lookup in a grouped-sum table. -/
def lookupQ (l : List (String × ℚ)) (i : String) : Option ℚ :=
  (l.find? (fun p => p.1 = i)).map (fun p => p.2)

/-- Column `Q_7D`: left-merge of the 7-day window sums onto the item table followed
by `fillna(0.0)` (lines 337-342, 351-352). -/
def q7 (data : List DataRow) (i : String) : ℚ :=
  (lookupQ (groupSumList (windowRows data (maxDay data - 6) (maxDay data))) i).getD 0

/-- Column `Q_30D` (lines 344-349, 353). -/
def q30 (data : List DataRow) (i : String) : ℚ :=
  (lookupQ (groupSumList (windowRows data (maxDay data - 29) (maxDay data))) i).getD 0

/-- Column `AVG_DAILY_30D = Q_30D / 30.0` (line 354). -/
def avgDaily30 (data : List DataRow) (i : String) : ℚ :=
  q30 data i / 30

/-- Spec-side direct formulation: sum of the quantities of item `i` over the
closed day window `[lo, hi]`. -/
def windowSum (data : List DataRow) (i : String) (lo hi : Int) : ℚ :=
  sumQ (data.filter (fun r => decide (r.item = i) && (decide (lo ≤ r.day) && decide (r.day ≤ hi))))

/-! ## Generic lemmas about the classifier loop -/

theorem classifyAux_eq_none (tbl : List (String × List RE)) (s : List Char)
    (h : ∀ e ∈ tbl, labelMatches e s = false) : classifyAux tbl s = none := by
  induction tbl with
  | nil => rfl
  | cons e rest ih =>
    have he : labelMatches e s = false := h e (by simp)
    simp only [classifyAux, he, Bool.false_eq_true, if_false]
    exact ih (fun e' he' => h e' (by simp [he']))

theorem classifyAux_first (tbl : List (String × List RE)) (s : List Char) :
    ∀ (i : Nat) (hi : i < tbl.length),
      labelMatches (tbl.get ⟨i, hi⟩) s = true →
      (∀ (j : Nat) (hj : j < tbl.length), j < i → labelMatches (tbl.get ⟨j, hj⟩) s = false) →
      classifyAux tbl s = some (tbl.get ⟨i, hi⟩).1 := by
  induction tbl with
  | nil => intro i hi; simp at hi
  | cons e rest ih =>
    intro i hi hm hpre
    cases i with
    | zero =>
      simp only [List.get] at hm ⊢
      simp only [classifyAux, hm, if_true]
    | succ k =>
      have he : labelMatches e s = false := hpre 0 (by simp) (Nat.succ_pos k)
      simp only [classifyAux, he, Bool.false_eq_true, if_false]
      simp only [List.get] at hm ⊢
      exact ih k (Nat.lt_of_succ_lt_succ hi) hm
        (fun j hj hji =>
          hpre (j + 1) (Nat.succ_lt_succ hj) (Nat.succ_lt_succ hji))

theorem classifyAux_hits_earliest (tbl : List (String × List RE)) (s : List Char) :
    ∀ (i : Nat) (hi : i < tbl.length),
      labelMatches (tbl.get ⟨i, hi⟩) s = true →
      ∃ (k : Nat) (hk : k < tbl.length), k ≤ i ∧
        labelMatches (tbl.get ⟨k, hk⟩) s = true ∧
        classifyAux tbl s = some (tbl.get ⟨k, hk⟩).1 := by
  induction tbl with
  | nil => intro i hi; simp at hi
  | cons e rest ih =>
    intro i hi hm
    by_cases he : labelMatches e s = true
    · exact ⟨0, by simp, Nat.zero_le i, he, by simp only [classifyAux, he, if_true, List.get]⟩
    · have he' : labelMatches e s = false := by
        cases h : labelMatches e s
        · rfl
        · exact absurd h he
      cases i with
      | zero => simp only [List.get] at hm; exact absurd hm he
      | succ k =>
        simp only [List.get] at hm
        obtain ⟨k', hk', hle, hmk, hcl⟩ := ih k (Nat.lt_of_succ_lt_succ hi) hm
        refine ⟨k' + 1, Nat.succ_lt_succ hk', Nat.succ_le_succ hle, ?_, ?_⟩
        · simpa only [List.get] using hmk
        · simp only [classifyAux, he', Bool.false_eq_true, if_false]
          simpa only [List.get] using hcl

/-- Claim C1: the Item Classifier iterates the critical-pattern table in
fixed declaration order (ALCOHOL first, PUNZOCATH 22 last) and returns the
first label, in that order, having at least one pattern whose unanchored
regex search matches `s`; if no pattern of any label matches it returns
`none`; and when `s` matches patterns of two different labels the label
declared earlier in the table is returned (so the later label is never the
result). -/
theorem claim_C1_classifier_first_match (s : List Char) :
    CRITICAL_PATTERNS.map Prod.fst =
      ["ALCOHOL", "GUANTES", "SOLUCION FISIOLOGICA", "IOP SOLUCION", "IOP JABON",
       "JERINGA 5ML", "JERINGA 10ML", "ALGODON", "MACROGOTERO", "MICROGOTERO",
       "VOLUTROL", "CLORHEXIDINA", "PUNZOCATH 18", "PUNZOCATH 20", "PUNZOCATH 22"] ∧
    ((∀ e ∈ CRITICAL_PATTERNS, labelMatches e s = false) → _classify_item s = none) ∧
    (∀ (i : Nat) (hi : i < CRITICAL_PATTERNS.length),
      labelMatches (CRITICAL_PATTERNS.get ⟨i, hi⟩) s = true →
      (∀ (j : Nat) (hj : j < CRITICAL_PATTERNS.length), j < i →
        labelMatches (CRITICAL_PATTERNS.get ⟨j, hj⟩) s = false) →
      _classify_item s = some (CRITICAL_PATTERNS.get ⟨i, hi⟩).1) ∧
    (∀ (i j : Nat) (hi : i < CRITICAL_PATTERNS.length) (hj : j < CRITICAL_PATTERNS.length),
      i < j → labelMatches (CRITICAL_PATTERNS.get ⟨i, hi⟩) s = true →
      _classify_item s ≠ some (CRITICAL_PATTERNS.get ⟨j, hj⟩).1) := by
  refine ⟨by rfl, ?_, ?_, ?_⟩
  · exact fun h => classifyAux_eq_none CRITICAL_PATTERNS s h
  · exact fun i hi hm hpre => classifyAux_first CRITICAL_PATTERNS s i hi hm hpre
  · intro i j hi hj hij hm hcl
    obtain ⟨k, hk, hki, _, hclk⟩ := classifyAux_hits_earliest CRITICAL_PATTERNS s i hi hm
    have hnd : (CRITICAL_PATTERNS.map Prod.fst).Nodup := by decide
    have hkj : k ≠ j := by omega
    have hglk : (CRITICAL_PATTERNS.map Prod.fst).get ⟨k, by simpa using hk⟩ =
        (CRITICAL_PATTERNS.get ⟨k, hk⟩).1 := by
      simp [List.getElem_map]
    have hglj : (CRITICAL_PATTERNS.map Prod.fst).get ⟨j, by simpa using hj⟩ =
        (CRITICAL_PATTERNS.get ⟨j, hj⟩).1 := by
      simp [List.getElem_map]
    have : (CRITICAL_PATTERNS.get ⟨k, hk⟩).1 ≠ (CRITICAL_PATTERNS.get ⟨j, hj⟩).1 := by
      rw [← hglk, ← hglj]
      intro heq
      have := (List.Nodup.get_inj_iff hnd).mp heq
      exact hkj (by simpa using this)
    rw [_classify_item] at hcl
    rw [hclk] at hcl
    exact this (Option.some_injective _ hcl)

/-- Witness for C1: `"guantes de alcohol"` matches both the ALCOHOL patterns
(index 0) and the GUANTES patterns (index 1); the classifier returns the
earlier label ALCOHOL. -/
theorem claim_C1_witness :
    _classify_item "guantes de alcohol".toList = some "ALCOHOL" := by
  have h := (claim_C1_classifier_first_match "guantes de alcohol".toList).2.2.1 0
    (by decide) (by decide) (fun j hj hj0 => absurd hj0 (Nat.not_lt_zero j))
  simpa using h

/-- Claim C10: classifying the empty string yields no label, and consequently
any row whose product name normalizes to the empty string is excluded from
the surviving record set of its batch. -/
theorem claim_C10_empty_name_excluded :
    _classify_item ([] : List Char) = none ∧
    ∀ (P : RowParams) (rows : List RawRow) (r : RawRow),
      _norm_text P.U (nombreProd P r).toList = [] → r ∉ survivors P rows := by
  constructor
  · decide
  · intro P rows r hnorm hmem
    have hkeep : keepRow P r = true := (List.mem_filter.mp hmem).2
    have hitem : itemCritico P r = none := by
      rw [itemCritico, hnorm]
      decide
    rw [keepRow, hitem] at hkeep
    simp at hkeep

/-- Witness for C10: a concrete row whose description is empty (and whose
code has no lookup entry) normalizes to the empty string and is dropped. -/
theorem claim_C10_witness :
    (⟨some "x", none, none, none, none, none, none, some ""⟩ : RawRow) ∉
      survivors ⟨asciiU, fun _ => some 0, []⟩
        [⟨some "x", none, none, none, none, none, none, some ""⟩] :=
  claim_C10_empty_name_excluded.2 ⟨asciiU, fun _ => some 0, []⟩
    [⟨some "x", none, none, none, none, none, none, some ""⟩]
    ⟨some "x", none, none, none, none, none, none, some ""⟩ (by decide)

/-! ## Lemmas about the Column Resolver -/

theorem upLookup_eq_none (cols : List String) (k : String) :
    upLookup cols k = none ↔ ∀ h ∈ cols, ¬ (pyUpper h) = k := by
  rw [upLookup, List.getLast?_eq_none_iff, List.filter_eq_nil_iff]
  constructor
  · intro hall h hmem
    have := hall h hmem
    simpa using this
  · intro hall h hmem
    simpa using hall h hmem

theorem upLookup_some (cols : List String) (k r : String)
    (h : upLookup cols k = some r) : r ∈ cols ∧ (pyUpper r) = k := by
  rw [upLookup] at h
  have hm := List.mem_of_mem_getLast? h
  have := List.mem_filter.mp hm
  exact ⟨this.1, by simpa using this.2⟩

theorem find_col_eq_none (cols cands : List String) :
    _find_col cols cands = none ↔
      ∀ a ∈ cands, ∀ h ∈ cols, ¬ (pyUpper h) = (pyUpper a) := by
  rw [_find_col, List.findSome?_eq_none_iff]
  constructor
  · intro hall a ha h hm
    exact ((upLookup_eq_none cols (pyUpper a)).mp (hall a ha)) h hm
  · intro hall a ha
    exact (upLookup_eq_none cols (pyUpper a)).mpr (fun h hm => hall a ha h hm)

theorem find_col_eq_some (cols cands : List String) (r : String)
    (h : _find_col cols cands = some r) :
    r ∈ cols ∧ ∃ a ∈ cands, (pyUpper r) = (pyUpper a) := by
  rw [_find_col] at h
  obtain ⟨a, ha, hup⟩ := List.exists_of_findSome?_eq_some h
  have := upLookup_some cols (pyUpper a) r hup
  exact ⟨this.1, a, ha, this.2⟩

theorem find_col_isNone_any (cols cands : List String) :
    (_find_col cols cands).isNone =
      ! cols.any (fun h => cands.any (fun a => (pyUpper h) = (pyUpper a))) := by
  cases hf : _find_col cols cands with
  | none =>
    have hall := (find_col_eq_none cols cands).mp hf
    simp only [Option.isNone_none, Bool.true_eq, Bool.not_eq_true']
    rw [List.any_eq_false]
    intro h hm hp
    rw [List.any_eq_true] at hp
    obtain ⟨a, ha, hup⟩ := hp
    exact hall a ha h hm (by simpa using hup)
  | some r =>
    obtain ⟨hmem, a, ha, hup⟩ := find_col_eq_some cols cands r hf
    simp only [Option.isNone_some]
    symm
    simp only [Bool.not_eq_false']
    rw [List.any_eq_true]
    exact ⟨r, hmem, by rw [List.any_eq_true]; exact ⟨a, ha, by simpa using hup⟩⟩

theorem missingReq_eq (cols : List String) : missingReq cols = unresolvedReq cols := by
  rw [missingReq, unresolvedReq]
  simp only [List.filter_cons, List.filter_nil, find_col_isNone_any]
  cases cols.any (fun h => (synOf "FECHA").any (fun a => (pyUpper h) = (pyUpper a))) <;>
    cases cols.any (fun h => (synOf "COD_PROD").any (fun a => (pyUpper h) = (pyUpper a))) <;>
      cases cols.any (fun h => (synOf "CANTIDAD").any (fun a => (pyUpper h) = (pyUpper a))) <;>
        simp

theorem infer_cases (cols : List String) :
    (infer_column_map cols = .error (missingReq cols, cols) ∧ missingReq cols ≠ []) ∨
    (∃ cm, infer_column_map cols = .ok cm ∧ missingReq cols = [] ∧
      _find_col cols (synOf "FECHA") = some cm.fecha ∧
      _find_col cols (synOf "COD_PROD") = some cm.cod_prod ∧
      _find_col cols (synOf "CANTIDAD") = some cm.cantidad ∧
      cm.almacen = _find_col cols (synOf "ALMACEN") ∧
      cm.servicio = _find_col cols (synOf "SERVICIO") ∧
      cm.cod_medico = _find_col cols (synOf "COD_MEDICO") ∧
      cm.id_paciente = _find_col cols (synOf "ID_PACIENTE") ∧
      cm.desc_prod = _find_col cols (synOf "DESC_PROD")) := by
  rcases h1 : _find_col cols (synOf "FECHA") with _ | f <;>
    rcases h2 : _find_col cols (synOf "COD_PROD") with _ | c <;>
      rcases h3 : _find_col cols (synOf "CANTIDAD") with _ | q
  case some.some.some =>
    right
    refine ⟨⟨f, c, q, _find_col cols (synOf "ALMACEN"), _find_col cols (synOf "SERVICIO"),
      _find_col cols (synOf "COD_MEDICO"), _find_col cols (synOf "ID_PACIENTE"),
      _find_col cols (synOf "DESC_PROD")⟩, ?_, ?_, ?_, ?_, ?_, rfl, rfl, rfl, rfl, rfl⟩
    · simp [infer_column_map, h1, h2, h3]
    · simp [missingReq, h1, h2, h3]
    · rfl
    · rfl
    · rfl
  all_goals
    left
    refine ⟨?_, ?_⟩
  all_goals
    simp [infer_column_map, missingReq, h1, h2, h3]

/-- Claim C3: the Column Resolver errors iff at least one of the three
required logical fields (FECHA, COD_PROD, CANTIDAD) has no observed header
matching any of its aliases case-insensitively; the error payload names
exactly the unresolved required fields together with the full observed
header list; and a successful map binds every optional field to its
resolution, so an unmatched optional field resolves to absent (`none`)
without raising. -/
theorem claim_C3_resolver_error_iff (cols : List String) :
    ((∃ e, infer_column_map cols = .error e) ↔ unresolvedReq cols ≠ []) ∧
    (∀ miss hdrs, infer_column_map cols = .error (miss, hdrs) →
      miss = unresolvedReq cols ∧ hdrs = cols) ∧
    (∀ cm, infer_column_map cols = .ok cm →
      cm.almacen = _find_col cols (synOf "ALMACEN") ∧
      cm.servicio = _find_col cols (synOf "SERVICIO") ∧
      cm.cod_medico = _find_col cols (synOf "COD_MEDICO") ∧
      cm.id_paciente = _find_col cols (synOf "ID_PACIENTE") ∧
      cm.desc_prod = _find_col cols (synOf "DESC_PROD")) := by
  rcases infer_cases cols with ⟨herr, hne⟩ |
    ⟨cm, hok, hnil, _, _, _, halm, hserv, hmed, hpac, hdesc⟩
  · refine ⟨⟨fun _ => missingReq_eq cols ▸ hne, fun _ => ⟨_, herr⟩⟩, ?_, ?_⟩
    · intro miss hdrs h
      rw [herr] at h
      injection h with h
      have h1 := congrArg Prod.fst h
      have h2 := congrArg Prod.snd h
      simp only at h1 h2
      exact ⟨h1.symm.trans (missingReq_eq cols), h2.symm⟩
    · intro cm h
      rw [herr] at h
      exact Except.noConfusion h
  · refine ⟨⟨?_, ?_⟩, ?_, ?_⟩
    · rintro ⟨e, he⟩
      rw [hok] at he
      exact Except.noConfusion he
    · intro hne
      exact absurd (missingReq_eq cols ▸ hnil) hne
    · intro miss hdrs h
      rw [hok] at h
      exact Except.noConfusion h
    · intro cm' h
      rw [hok] at h
      injection h with h
      subst h
      exact ⟨halm, hserv, hmed, hpac, hdesc⟩

/-- Witness for C3: headers lacking every FECHA alias produce exactly the
error payload naming "FECHA" and echoing the observed headers. -/
theorem claim_C3_witness :
    (["FECHA"] : List String) = unresolvedReq ["COD_ITEM", "CANT_SOL"] ∧
    (["COD_ITEM", "CANT_SOL"] : List String) = ["COD_ITEM", "CANT_SOL"] :=
  (claim_C3_resolver_error_iff ["COD_ITEM", "CANT_SOL"]).2.1
    ["FECHA"] ["COD_ITEM", "CANT_SOL"] rfl

/-- Claim C9: every successfully constructed ColumnMap binds the three
required logical fields to three distinct headers, each present in the
observed header list; and when construction fails no binding of the three
required fields to distinct, present, alias-matching headers exists. -/
theorem claim_C9_required_distinct (cols : List String) :
    (∀ cm, infer_column_map cols = .ok cm →
      (cm.fecha ∈ cols ∧ cm.cod_prod ∈ cols ∧ cm.cantidad ∈ cols) ∧
      (cm.fecha ≠ cm.cod_prod ∧ cm.fecha ≠ cm.cantidad ∧ cm.cod_prod ≠ cm.cantidad)) ∧
    (∀ e, infer_column_map cols = .error e →
      ¬ ∃ f c q : String,
        (f ∈ cols ∧ ∃ a ∈ synOf "FECHA", (pyUpper f) = (pyUpper a)) ∧
        (c ∈ cols ∧ ∃ a ∈ synOf "COD_PROD", (pyUpper c) = (pyUpper a)) ∧
        (q ∈ cols ∧ ∃ a ∈ synOf "CANTIDAD", (pyUpper q) = (pyUpper a)) ∧
        f ≠ c ∧ f ≠ q ∧ c ≠ q) := by
  constructor
  · intro cm hok'
    rcases infer_cases cols with ⟨herr, _⟩ |
      ⟨cm', hok, _, hF, hC, hQ, _⟩
    · rw [herr] at hok'
      exact Except.noConfusion hok'
    · rw [hok] at hok'
      injection hok' with hok'
      subst hok'
      obtain ⟨hFm, a, ha, hFa⟩ := find_col_eq_some _ _ _ hF
      obtain ⟨hCm, b, hb, hCb⟩ := find_col_eq_some _ _ _ hC
      obtain ⟨hQm, d, hd, hQd⟩ := find_col_eq_some _ _ _ hQ
      refine ⟨⟨hFm, hCm, hQm⟩, ?_, ?_, ?_⟩
      · intro heq
        have hd1 : ∀ a' ∈ synOf "FECHA", ∀ b' ∈ synOf "COD_PROD",
            (pyUpper a') ≠ (pyUpper b') := by decide
        exact hd1 a ha b hb (hFa ▸ hCb ▸ congrArg pyUpper heq)
      · intro heq
        have hd2 : ∀ a' ∈ synOf "FECHA", ∀ b' ∈ synOf "CANTIDAD",
            (pyUpper a') ≠ (pyUpper b') := by decide
        exact hd2 a ha d hd (hFa ▸ hQd ▸ congrArg pyUpper heq)
      · intro heq
        have hd3 : ∀ a' ∈ synOf "COD_PROD", ∀ b' ∈ synOf "CANTIDAD",
            (pyUpper a') ≠ (pyUpper b') := by decide
        exact hd3 b hb d hd (hCb ▸ hQd ▸ congrArg pyUpper heq)
  · intro e he hex
    obtain ⟨f, c, q, ⟨hfm, a, ha, hfa⟩, ⟨hcm', b, hb, hcb⟩, ⟨hqm, d, hd, hqd⟩, _⟩ := hex
    rcases h1 : _find_col cols (synOf "FECHA") with _ | x
    · exact (find_col_eq_none _ _).mp h1 a ha f hfm hfa
    · rcases h2 : _find_col cols (synOf "COD_PROD") with _ | y
      · exact (find_col_eq_none _ _).mp h2 b hb c hcm' hcb
      · rcases h3 : _find_col cols (synOf "CANTIDAD") with _ | z
        · exact (find_col_eq_none _ _).mp h3 d hd q hqm hqd
        · rw [infer_column_map] at he
          rw [h1, h2, h3] at he
          exact Except.noConfusion he

/-- Witness for C9: the canonical header triple resolves to itself, with the
members and distinctness facts delivered by the theorem. -/
theorem claim_C9_witness :
    ((("FECHA" : String) ∈ ["FECHA", "COD_PROD", "CANTIDAD"] ∧
      ("COD_PROD" : String) ∈ ["FECHA", "COD_PROD", "CANTIDAD"] ∧
      ("CANTIDAD" : String) ∈ ["FECHA", "COD_PROD", "CANTIDAD"]) ∧
     (("FECHA" : String) ≠ "COD_PROD" ∧ ("FECHA" : String) ≠ "CANTIDAD" ∧
      ("COD_PROD" : String) ≠ "CANTIDAD")) :=
  (claim_C9_required_distinct ["FECHA", "COD_PROD", "CANTIDAD"]).1
    ⟨"FECHA", "COD_PROD", "CANTIDAD", none, none, none, none, none⟩ rfl

/-! ## Lemmas about the Code Cleaner -/

theorem natDecAux_digits (fuel : Nat) :
    ∀ (n : Nat) (acc : List Char), (∀ c ∈ acc, isDigitCh c = true) →
      ∀ c ∈ natDecAux fuel n acc, isDigitCh c = true := by
  induction fuel with
  | zero => intro n acc hacc; exact hacc
  | succ fuel ih =>
    intro n acc hacc c hc
    have hdig : ∀ m, m < 10 → isDigitCh (Nat.digitChar m) = true := by decide
    rw [natDecAux] at hc
    by_cases h : n < 10
    · rw [if_pos h] at hc
      rcases List.mem_cons.mp hc with hc | hc
      · exact hc ▸ hdig n h
      · exact hacc c hc
    · rw [if_neg h] at hc
      refine ih (n / 10) (Nat.digitChar (n % 10) :: acc) ?_ c hc
      intro c' hc'
      rcases List.mem_cons.mp hc' with hc' | hc'
      · exact hc' ▸ hdig (n % 10) (Nat.mod_lt n (by omega))
      · exact hacc c' hc'

theorem natDec_digits (n : Nat) : ∀ c ∈ natDec n, isDigitCh c = true :=
  natDecAux_digits (n + 1) n [] (by intro c hc; cases hc)

theorem natDecAux_ne_nil (fuel : Nat) :
    ∀ (n : Nat) (acc : List Char), acc ≠ [] → natDecAux fuel n acc ≠ [] := by
  induction fuel with
  | zero => intro n acc h; exact h
  | succ fuel ih =>
    intro n acc h
    rw [natDecAux]
    by_cases hn : n < 10
    · rw [if_pos hn]; exact List.cons_ne_nil _ _
    · rw [if_neg hn]; exact ih (n / 10) _ (List.cons_ne_nil _ _)

theorem natDec_ne_nil (n : Nat) : natDec n ≠ [] := by
  rw [natDec, natDecAux]
  by_cases hn : n < 10
  · rw [if_pos hn]; exact List.cons_ne_nil _ _
  · rw [if_neg hn]; exact natDecAux_ne_nil n (n / 10) _ (List.cons_ne_nil _ _)

theorem intRepr_ne_nil (neg : Bool) (ip : Nat) : intRepr neg ip ≠ [] := by
  rw [intRepr]
  by_cases h : neg && !(ip = 0 : Bool)
  · rw [if_pos h]; exact List.cons_ne_nil _ _
  · rw [if_neg h]; exact natDec_ne_nil ip

theorem intRepr_no_dot (neg : Bool) (ip : Nat) : '.' ∉ intRepr neg ip := by
  intro hmem
  rw [intRepr] at hmem
  have hd : ∀ c ∈ natDec ip, c ≠ '.' := by
    intro c hc he
    have := natDec_digits ip c hc
    rw [he] at this
    exact absurd this (by decide)
  by_cases h : neg && !(ip = 0 : Bool)
  · rw [if_pos h] at hmem
    rcases List.mem_cons.mp hmem with hc | hc
    · exact absurd hc.symm (by decide)
    · exact hd '.' hc rfl
  · rw [if_neg h] at hmem
    exact hd '.' hmem rfl

theorem stripDotZeros_no_dot (l : List Char) (h : '.' ∉ l) : stripDotZeros l = l := by
  rw [stripDotZeros]
  split
  · rename_i t heq
    exfalso
    apply h
    have hm : '.' ∈ l.reverse.dropWhile (fun c => c = '0') := by rw [heq]; simp
    have := (List.dropWhile_sublist (fun c => c = '0')).mem hm
    exact List.mem_reverse.mp this
  · rfl

/-- Claim C4: for every behavior of the numeric-parse collaborator
(`pd.to_numeric`) and every input cell on which that parse succeeds with a
finite machine value `±sf·2^g` - every int64, uint64 or float64 result has
this dyadic form, so float64 rounding of large mantissas and scientific
notation are covered - the Code Cleaner's output is the integer part of
that parsed value, Python `str(int(v))`, rendered as a decimal string with
no fractional remainder (no `'.'` at all); in particular
`clean("27491.0") = "27491"`. -/
theorem claim_C4_clean_code_integer
    (toNum : List Char → Option (Bool × Nat × Int)) (cell : Option String)
    (neg : Bool) (sf : Nat) (g : Int)
    (h : toNum (cleanPre cell) = some (neg, sf, g)) :
    _clean_code_with toNum cell = intRepr neg (pdTrunc sf g) ∧
    '.' ∉ _clean_code_with toNum cell ∧
    _clean_code_str (some "27491.0") = "27491".toList := by
  have hne : intRepr neg (pdTrunc sf g) ≠ [] := intRepr_ne_nil neg (pdTrunc sf g)
  have hdot : '.' ∉ intRepr neg (pdTrunc sf g) := intRepr_no_dot neg (pdTrunc sf g)
  have hout : _clean_code_with toNum cell = stripDotZeros (intRepr neg (pdTrunc sf g)) := by
    rw [_clean_code_with, h]
    rw [List.isEmpty_eq_false.mpr hne]
    simp
  have hfix : stripDotZeros (intRepr neg (pdTrunc sf g)) = intRepr neg (pdTrunc sf g) :=
    stripDotZeros_no_dot _ hdot
  refine ⟨hout.trans hfix, ?_, by decide⟩
  rw [hout, hfix]
  exact hdot

/-- Witness for C4: three collaborator instances at concrete inputs - the
exact-decimal fragment at `"27491.0"` (output `"27491"`), a collaborator
returning the float64 value of `"9007199254740993.0"`, whose 53-bit
rounding is `9007199254740992 = 2^52·2^1` (output the rounded integer, as
the program produces), and a collaborator parsing the scientific-notation
literal `"1e3"` to `1000·2^0` (output `"1000"`). -/
theorem claim_C4_witness :
    (parseDecVal (cleanPre (some "27491.0")) = some (false, 27491, 0) ∧
      _clean_code_str (some "27491.0") = "27491".toList) ∧
    _clean_code_with
        (fun l => if l = "9007199254740993.0".toList then some (false, 2 ^ 52, 1) else none)
        (some "9007199254740993.0") = "9007199254740992".toList ∧
    _clean_code_with (fun l => if l = "1e3".toList then some (false, 1000, 0) else none)
        (some "1e3") = "1000".toList :=
  ⟨⟨by decide,
    (claim_C4_clean_code_integer parseDecVal (some "27491.0") false 27491 0 (by decide)).2.2⟩,
   ((claim_C4_clean_code_integer
      (fun l => if l = "9007199254740993.0".toList then some (false, 2 ^ 52, 1) else none)
      (some "9007199254740993.0") false (2 ^ 52) 1 (by decide)).1).trans (by decide),
   ((claim_C4_clean_code_integer (fun l => if l = "1e3".toList then some (false, 1000, 0) else none)
      (some "1e3") false 1000 0 (by decide)).1).trans (by decide)⟩

/-- Counterexample to C5 as stated: on a null cell the cleaner does not
return the empty string (pandas `astype(str)` renders the missing value as
`"nan"`, the numeric parse of `"nan"` coerces to missing, and the `where`
step then restores the sanitized original string `"nan"`). -/
theorem claim_C5_counterexample : _clean_code_str none ≠ [] := by decide

/-- Claim C5 (amended): the Code Cleaner returns the empty string for empty
input, but for a null/absent cell it returns `"nan"`, the `astype(str)`
rendering of the missing value - not the empty string. -/
theorem claim_C5_empty_and_null :
    _clean_code_str (some "") = [] ∧ _clean_code_str none = "nan".toList := by
  exact ⟨by decide, by decide⟩

/-! ## Lemmas about the lookup-merge -/

theorem dget_cons_pos (e : String × String) (t : List (String × String)) (k : String)
    (h : e.1 = k) : dget (e :: t) k = some e.2 := by
  rw [dget, List.find?_cons_of_pos _ (by simp [h])]
  rfl

theorem dget_cons_neg (e : String × String) (t : List (String × String)) (k : String)
    (h : ¬ e.1 = k) : dget (e :: t) k = dget t k := by
  rw [dget, List.find?_cons_of_neg _ (by simp [h]), dget]

theorem dget_map_update_self (d : List (String × String)) (k v : String)
    (h : d.any (fun p => p.1 = k) = true) :
    dget (d.map (fun p => if p.1 = k then (k, v) else p)) k = some v := by
  induction d with
  | nil => simp at h
  | cons e t ih =>
    by_cases he : e.1 = k
    · rw [List.map_cons, if_pos he]
      exact dget_cons_pos (k, v) _ k rfl
    · rw [List.map_cons, if_neg he, dget_cons_neg e _ k he]
      apply ih
      rcases List.any_eq_true.mp h with ⟨p, hp, hpk⟩
      rcases List.mem_cons.mp hp with hp | hp
      · exact absurd (by simpa [hp] using hpk) he
      · exact List.any_eq_true.mpr ⟨p, hp, hpk⟩

theorem dget_append_single_self (d : List (String × String)) (k v : String)
    (h : ¬ d.any (fun p => p.1 = k) = true) :
    dget (d ++ [(k, v)]) k = some v := by
  induction d with
  | nil => exact dget_cons_pos (k, v) [] k rfl
  | cons e t ih =>
    have he : ¬ e.1 = k := by
      intro hek
      exact h (List.any_eq_true.mpr ⟨e, List.mem_cons_self e t, by simp [hek]⟩)
    rw [List.cons_append, dget_cons_neg e _ k he]
    apply ih
    intro ht
    rcases List.any_eq_true.mp ht with ⟨p, hp, hpk⟩
    exact h (List.any_eq_true.mpr ⟨p, List.mem_cons_of_mem e hp, hpk⟩)

theorem dget_dput_self (d : List (String × String)) (k v : String) :
    dget (dput d k v) k = some v := by
  rw [dput]
  by_cases h : d.any (fun p => p.1 = k)
  · rw [if_pos h]; exact dget_map_update_self d k v h
  · rw [if_neg h]; exact dget_append_single_self d k v h

theorem dget_map_update_other (d : List (String × String)) (k v k' : String)
    (hkk : ¬ k = k') :
    dget (d.map (fun p => if p.1 = k then (k, v) else p)) k' = dget d k' := by
  induction d with
  | nil => rfl
  | cons e t ih =>
    by_cases he : e.1 = k
    · have he' : ¬ e.1 = k' := by rw [he]; exact hkk
      rw [List.map_cons, if_pos he, dget_cons_neg (k, v) _ k' hkk,
        dget_cons_neg e t k' he', ih]
    · rw [List.map_cons, if_neg he]
      by_cases he2 : e.1 = k'
      · rw [dget_cons_pos e _ k' he2, dget_cons_pos e t k' he2]
      · rw [dget_cons_neg e _ k' he2, dget_cons_neg e t k' he2, ih]

theorem dget_append_single_other (d : List (String × String)) (k v k' : String)
    (hkk : ¬ k = k') :
    dget (d ++ [(k, v)]) k' = dget d k' := by
  induction d with
  | nil => rw [List.nil_append, dget_cons_neg (k, v) [] k' hkk]
  | cons e t ih =>
    by_cases he : e.1 = k'
    · rw [List.cons_append, dget_cons_pos e _ k' he, dget_cons_pos e t k' he]
    · rw [List.cons_append, dget_cons_neg e _ k' he, dget_cons_neg e t k' he, ih]

theorem dget_dput_other (d : List (String × String)) (k v k' : String)
    (hkk : ¬ k = k') : dget (dput d k v) k' = dget d k' := by
  rw [dput]
  by_cases h : d.any (fun p => p.1 = k)
  · rw [if_pos h]; exact dget_map_update_other d k v k' hkk
  · rw [if_neg h]; exact dget_append_single_other d k v k' hkk

theorem dget_fillStep_other (d : List (String × String)) (p : String × String)
    (k : String) (hk : ¬ p.1 = k) : dget (fillStep d p) k = dget d k := by
  rw [fillStep]
  split
  · exact dget_dput_other d p.1 p.2 k hk
  · rfl

theorem fill_preserves_nonblank (l : List (String × String)) :
    ∀ (acc : List (String × String)) (k v : String),
      dget acc k = some v → v ≠ "" → dget (l.foldl fillStep acc) k = some v := by
  induction l with
  | nil => intro acc k v hv _; exact hv
  | cons p t ih =>
    intro acc k v hv hvne
    rw [List.foldl_cons]
    apply ih
    · by_cases hp : p.1 = k
      · have hcond : ¬ (p.1 ≠ "" ∧ (dget acc p.1 = none ∨ dget acc p.1 = some "")) := by
          rw [hp]
          rintro ⟨_, hnone | hblank⟩
          · rw [hv] at hnone; exact Option.noConfusion hnone
          · rw [hv] at hblank
            injection hblank with h2
            exact hvne h2
        rw [fillStep, if_neg hcond]
        exact hv
      · rw [dget_fillStep_other acc p k hp]
        exact hv
    · exact hvne

theorem fill_untouched (l : List (String × String)) :
    ∀ (acc : List (String × String)) (k : String),
      (∀ p ∈ l, ¬ p.1 = k) → dget (l.foldl fillStep acc) k = dget acc k := by
  induction l with
  | nil => intro acc k _; rfl
  | cons p t ih =>
    intro acc k hall
    rw [List.foldl_cons,
      ih (fillStep acc p) k (fun q hq => hall q (List.mem_cons_of_mem p hq))]
    exact dget_fillStep_other acc p k (hall p (List.mem_cons_self p t))

theorem keys_nodup_dput (d : List (String × String)) (k v : String)
    (h : (d.map Prod.fst).Nodup) : ((dput d k v).map Prod.fst).Nodup := by
  rw [dput]
  by_cases hany : d.any (fun p => p.1 = k)
  · rw [if_pos hany]
    have : (d.map (fun p => if p.1 = k then (k, v) else p)).map Prod.fst = d.map Prod.fst := by
      rw [List.map_map]
      apply List.map_congr_left
      intro p _
      by_cases hp : p.1 = k
      · simp [hp]
      · simp [hp]
    rw [this]
    exact h
  · rw [if_neg hany, List.map_append, List.nodup_append]
    refine ⟨h, List.nodup_singleton _, ?_⟩
    intro x hx hx1
    rcases List.mem_map.mp hx with ⟨p, hp, hpx⟩
    rcases List.mem_singleton.mp hx1 with rfl
    exact hany (List.any_eq_true.mpr ⟨p, hp, by simp [hpx]⟩)

theorem dictOfPairs_keys_nodup_aux (ps : List (String × String)) :
    ∀ (acc : List (String × String)), (acc.map Prod.fst).Nodup →
      ((ps.foldl (fun d p => dput d p.1 p.2) acc).map Prod.fst).Nodup := by
  induction ps with
  | nil => intro acc h; exact h
  | cons p t ih =>
    intro acc h
    rw [List.foldl_cons]
    exact ih _ (keys_nodup_dput acc p.1 p.2 h)

theorem dictOfPairs_keys_nodup (ps : List (String × String)) :
    ((dictOfPairs ps).map Prod.fst).Nodup :=
  dictOfPairs_keys_nodup_aux ps [] List.nodup_nil

theorem fill_takes_supplementary (l : List (String × String)) :
    ∀ (acc : List (String × String)) (k w : String),
      (l.map Prod.fst).Nodup → k ≠ "" →
      (dget acc k = none ∨ dget acc k = some "") →
      dget l k = some w → dget (l.foldl fillStep acc) k = some w := by
  induction l with
  | nil => intro acc k w _ _ _ hw; exact absurd hw (by rw [dget]; simp)
  | cons p t ih =>
    intro acc k w hnd hk hblank hw
    by_cases hp : p.1 = k
    · have hw' : w = p.2 := by
        rw [dget_cons_pos p t k hp] at hw
        injection hw with hw
        exact hw.symm
      have hcond : p.1 ≠ "" ∧ (dget acc p.1 = none ∨ dget acc p.1 = some "") := by
        rw [hp]; exact ⟨hk, hblank⟩
      rw [List.foldl_cons, fillStep, if_pos hcond]
      have hrest : ∀ q ∈ t, ¬ q.1 = k := by
        intro q hq hqk
        rw [List.map_cons, List.nodup_cons] at hnd
        exact hnd.1 (hp ▸ hqk ▸ List.mem_map.mpr ⟨q, hq, rfl⟩)
      rw [fill_untouched t _ k hrest, hp, hw', dget_dput_self]
    · rw [dget_cons_neg p t k hp] at hw
      rw [List.foldl_cons]
      apply ih _ k w (by rw [List.map_cons, List.nodup_cons] at hnd; exact hnd.2) hk
      · rw [dget_fillStep_other acc p k hp]
        exact hblank
      · exact hw

/-- Counterexample to C6 as stated: a blank key (`""`) present in the
supplementary (recurrent) dict and absent from the primary map is *not*
copied into the merge, because the loop guard `if k and ...` skips falsy
keys; the claim's unconditional "absent keys take the supplementary value"
fails at the blank key. -/
theorem claim_C6_counterexample :
    dget (dictOfPairs [("", "LUIS")]) "" = some "LUIS" ∧
    dget [("123", "ANA")] "" = none ∧
    dget (fillRecurrentes [("123", "ANA")] [("", "LUIS")]) "" ≠ some "LUIS" := by
  exact ⟨by decide, by decide, by decide⟩

/-- Claim C6 (amended): in the patient reference-lookup merge, a key bound
to a non-blank value in the primary map keeps its primary value regardless
of the supplementary (recurrent) dict; and every *non-blank* key that is
absent from the primary map or bound to a blank value takes the
supplementary dict's value.  Blank keys are never filled from the
supplementary source. -/
theorem claim_C6_lookup_merge (pac recs : List (String × String)) (k : String) :
    (∀ v, dget pac k = some v → v ≠ "" →
      dget (fillRecurrentes pac recs) k = some v) ∧
    (k ≠ "" → (dget pac k = none ∨ dget pac k = some "") →
      ∀ w, dget (dictOfPairs recs) k = some w →
        dget (fillRecurrentes pac recs) k = some w) := by
  constructor
  · intro v hv hvne
    exact fill_preserves_nonblank (dictOfPairs recs) pac k v hv hvne
  · intro hk hblank w hw
    exact fill_takes_supplementary (dictOfPairs recs) pac k w
      (dictOfPairs_keys_nodup recs) hk hblank hw

/-- Witness for C6: the spec's own merge example - primary `{123: ANA}`,
supplementary `{123: OTHER, 456: LUIS}` - where the gap key 456 is filled
with LUIS. -/
theorem claim_C6_witness :
    dget (fillRecurrentes [("123", "ANA")] [("123", "OTHER"), ("456", "LUIS")]) "456" =
      some "LUIS" :=
  (claim_C6_lookup_merge [("123", "ANA")] [("123", "OTHER"), ("456", "LUIS")] "456").2
    (by decide) (Or.inl (by decide)) "LUIS" (by decide)

/-- Counterexample to C7 as stated: a row whose quantity fails numeric
coercion but whose date parses and whose product classifies is *not*
excluded - the driver only drops rows for unparseable dates and
unclassifiable items (lines 291-292); quantity is never checked. -/
theorem claim_C7_counterexample :
    survivors ⟨asciiU, fun s => if s = "2025-01-01" then some 0 else none, []⟩
        [⟨some "2025-01-01", some "1", some "abc", none, none, none, none, some "alcohol"⟩] =
      [⟨some "2025-01-01", some "1", some "abc", none, none, none, none, some "alcohol"⟩] ∧
    _coerce_numeric (some "abc") = none := by
  exact ⟨by decide, by decide⟩

/-- Claim C7 (amended): a row survives into the unified record set iff its
date parses and its product classifies; rows failing either are dropped
non-fatally, but a row whose quantity fails to parse is NOT excluded - it
survives with a missing quantity. -/
theorem claim_C7_row_filter (P : RowParams) (rows : List RawRow) (r : RawRow) :
    r ∈ survivors P rows ↔
      r ∈ rows ∧ fechaParsed P r ≠ none ∧ itemCritico P r ≠ none := by
  rw [survivors, List.mem_filter, keepRow, Bool.and_eq_true]
  rw [Option.isSome_iff_ne_none, Option.isSome_iff_ne_none]

/-! ## Lemmas about the KPI windows -/

theorem foldl_max_bounds (t : List DataRow) :
    ∀ b : Int,
      b ≤ t.foldl (fun m x => max m x.day) b ∧
      (∀ r ∈ t, r.day ≤ t.foldl (fun m x => max m x.day) b) ∧
      (t.foldl (fun m x => max m x.day) b = b ∨
        ∃ r ∈ t, t.foldl (fun m x => max m x.day) b = r.day) := by
  induction t with
  | nil =>
    intro b
    refine ⟨le_refl b, ?_, Or.inl rfl⟩
    intro r hr
    cases hr
  | cons x xs ih =>
    intro b
    obtain ⟨hle, hall, hatt⟩ := ih (max b x.day)
    rw [List.foldl_cons]
    refine ⟨le_trans (le_max_left b x.day) hle, ?_, ?_⟩
    · intro r hr
      rcases List.mem_cons.mp hr with hr | hr
      · have hx : r.day = x.day := by rw [hr]
        rw [hx]
        exact le_trans (le_max_right b x.day) hle
      · exact hall r hr
    · rcases hatt with hatt | ⟨r, hr, hatt⟩
      · rcases max_choice b x.day with hm | hm
        · exact Or.inl (hatt.trans hm)
        · exact Or.inr ⟨x, List.mem_cons_self x xs, hatt.trans hm⟩
      · exact Or.inr ⟨r, List.mem_cons_of_mem x hr, hatt⟩

theorem maxDay_bounds (data : List DataRow) (hne : data ≠ []) :
    (∀ r ∈ data, r.day ≤ maxDay data) ∧ ∃ r ∈ data, r.day = maxDay data := by
  cases data with
  | nil => exact absurd rfl hne
  | cons r0 t =>
    obtain ⟨hle, hall, hatt⟩ := foldl_max_bounds t r0.day
    rw [maxDay]
    refine ⟨?_, ?_⟩
    · intro r hr
      rcases List.mem_cons.mp hr with hr | hr
      · have hx : r.day = r0.day := by rw [hr]
        rw [hx]
        exact hle
      · exact hall r hr
    · rcases hatt with hatt | ⟨r, hr, hatt⟩
      · exact ⟨r0, List.mem_cons_self r0 t, hatt.symm⟩
      · exact ⟨r, List.mem_cons_of_mem r0 hr, hatt.symm⟩

theorem lookupQ_map_pair (l : List String) (f : String → ℚ) (i : String) :
    lookupQ (l.map (fun j => (j, f j))) i = if i ∈ l then some (f i) else none := by
  induction l with
  | nil => rfl
  | cons j t ih =>
    by_cases hj : j = i
    · rw [List.map_cons, lookupQ, List.find?_cons_of_pos _ (by simp [hj])]
      simp [hj]
    · rw [List.map_cons, lookupQ, List.find?_cons_of_neg _ (by simp [hj]), ← lookupQ, ih]
      by_cases hm : i ∈ t
      · rw [if_pos hm, if_pos (List.mem_cons_of_mem j hm)]
      · rw [if_neg hm, if_neg ?_]
        intro hc
        rcases List.mem_cons.mp hc with hc | hc
        · exact hj hc.symm
        · exact hm hc

theorem filter_item_nil_of_not_mem (rows : List DataRow) (i : String)
    (h : ¬ i ∈ itemsOf rows) : rows.filter (fun r => r.item = i) = [] := by
  rw [List.filter_eq_nil_iff]
  intro r hr
  simp only [decide_eq_true_eq]
  intro heq
  exact h (by rw [itemsOf, List.mem_dedup]; exact List.mem_map.mpr ⟨r, hr, heq⟩)

theorem lookupQ_groupSumList (rows : List DataRow) (i : String) :
    (lookupQ (groupSumList rows) i).getD 0 =
      sumQ (rows.filter (fun r => r.item = i)) := by
  rw [groupSumList, lookupQ_map_pair]
  by_cases h : i ∈ itemsOf rows
  · rw [if_pos h, Option.getD_some]
  · rw [if_neg h, Option.getD_none, filter_item_nil_of_not_mem rows i h]
    rfl

theorem windowRows_filter_item (data : List DataRow) (i : String) (lo hi : Int) :
    (windowRows data lo hi).filter (fun r => r.item = i) =
      data.filter (fun r => decide (r.item = i) && (decide (lo ≤ r.day) && decide (r.day ≤ hi))) := by
  rw [windowRows, List.filter_filter]

/-- Claim C8: `Q_7D` equals the sum of quantities over the 7 calendar days
ending at (and including) the maximum observed day of the whole dataset,
`Q_30D` is the analogous 30-day sum, `maxDay` really is the dataset maximum,
an item present overall with no rows in a window gets sum 0 (never
null/missing), and `AVG_DAILY_30D` is `Q_30D` divided by the fixed divisor
30. -/
theorem claim_C8_kpi_windows (data : List DataRow) (i : String)
    (hi : i ∈ itemsOf data) :
    q7 data i = windowSum data i (maxDay data - 6) (maxDay data) ∧
    q30 data i = windowSum data i (maxDay data - 29) (maxDay data) ∧
    (∀ r ∈ data, r.day ≤ maxDay data) ∧
    (∃ r ∈ data, r.day = maxDay data) ∧
    ((∀ r ∈ data, r.item = i → ¬(maxDay data - 6 ≤ r.day ∧ r.day ≤ maxDay data)) →
      q7 data i = 0) ∧
    avgDaily30 data i = q30 data i / 30 := by
  have hq7 : q7 data i = windowSum data i (maxDay data - 6) (maxDay data) := by
    rw [q7, lookupQ_groupSumList, windowRows_filter_item, windowSum]
  have hq30 : q30 data i = windowSum data i (maxDay data - 29) (maxDay data) := by
    rw [q30, lookupQ_groupSumList, windowRows_filter_item, windowSum]
  have hne : data ≠ [] := by
    intro h
    rw [h] at hi
    cases hi
  obtain ⟨hmax, hatt⟩ := maxDay_bounds data hne
  refine ⟨hq7, hq30, hmax, hatt, ?_, rfl⟩
  intro hnone
  rw [hq7, windowSum]
  have : data.filter (fun r => decide (r.item = i) &&
      (decide (maxDay data - 6 ≤ r.day) && decide (r.day ≤ maxDay data))) = [] := by
    rw [List.filter_eq_nil_iff]
    intro r hr
    simp only [Bool.and_eq_true, decide_eq_true_eq]
    rintro ⟨hitem, h1, h2⟩
    exact hnone r hr hitem ⟨h1, h2⟩
  rw [this]
  rfl

/-- Witness for C8: a three-row dataset whose maximum day is 40; the ALCOHOL
7-day KPI value equals the direct windowed sum. -/
theorem claim_C8_witness :
    q7 [⟨"ALCOHOL", 0, some 5⟩, ⟨"ALCOHOL", 40, some 3⟩, ⟨"GUANTES", 35, none⟩] "ALCOHOL" =
      windowSum [⟨"ALCOHOL", 0, some 5⟩, ⟨"ALCOHOL", 40, some 3⟩, ⟨"GUANTES", 35, none⟩]
        "ALCOHOL"
        (maxDay [⟨"ALCOHOL", 0, some 5⟩, ⟨"ALCOHOL", 40, some 3⟩, ⟨"GUANTES", 35, none⟩] - 6)
        (maxDay [⟨"ALCOHOL", 0, some 5⟩, ⟨"ALCOHOL", 40, some 3⟩, ⟨"GUANTES", 35, none⟩]) :=
  (claim_C8_kpi_windows
      [⟨"ALCOHOL", 0, some 5⟩, ⟨"ALCOHOL", 40, some 3⟩, ⟨"GUANTES", 35, none⟩]
      "ALCOHOL" (by decide)).1

/-! ## Lemmas about the Text Normalizer -/

theorem isLowerAlnum_ne_space (c : Char) (h : isLowerAlnum c = true) : c ≠ ' ' := by
  intro he
  rw [he] at h
  exact absurd h (by decide)

theorem subRuns_mem (p : Char → Bool) :
    ∀ (l : List Char) (b : Bool) (c : Char),
      c ∈ subRuns p b l → c = ' ' ∨ (c ∈ l ∧ p c = false) := by
  intro l
  induction l with
  | nil => intro b c hc; cases hc
  | cons x xs ih =>
    intro b c hc
    rw [subRuns] at hc
    by_cases hx : p x
    · rw [if_pos hx] at hc
      cases b with
      | true =>
        rcases ih true c hc with h | ⟨hm, hp⟩
        · exact Or.inl h
        · exact Or.inr ⟨List.mem_cons_of_mem x hm, hp⟩
      | false =>
        rcases List.mem_cons.mp hc with h | hc'
        · exact Or.inl h
        · rcases ih true c hc' with h | ⟨hm, hp⟩
          · exact Or.inl h
          · exact Or.inr ⟨List.mem_cons_of_mem x hm, hp⟩
    · rw [if_neg hx] at hc
      rcases List.mem_cons.mp hc with h | hc'
      · exact Or.inr ⟨h ▸ List.mem_cons_self x xs, h ▸ (Bool.not_eq_true _).mp hx⟩
      · rcases ih false c hc' with h | ⟨hm, hp⟩
        · exact Or.inl h
        · exact Or.inr ⟨List.mem_cons_of_mem x hm, hp⟩

theorem subRuns_true_head (p : Char → Bool) :
    ∀ (l : List Char) (c : Char), (subRuns p true l).head? = some c → p c = false := by
  intro l
  induction l with
  | nil => intro c hc; cases hc
  | cons x xs ih =>
    intro c hc
    rw [subRuns] at hc
    by_cases hx : p x
    · rw [if_pos hx] at hc
      exact ih c hc
    · rw [if_neg hx] at hc
      injection hc with hc
      exact hc ▸ (Bool.not_eq_true _).mp hx

theorem noDbl_cons (a : Char) (l : List Char) (h : noDbl (a :: l) = true) :
    noDbl l = true := by
  cases l with
  | nil => rfl
  | cons b t =>
    rw [noDbl, Bool.and_eq_true] at h
    exact h.2

theorem noDbl_cons_build (a : Char) (l : List Char) (hnd : noDbl l = true)
    (hh : ∀ c, l.head? = some c → ¬ (a = ' ' ∧ c = ' ')) : noDbl (a :: l) = true := by
  cases l with
  | nil => rfl
  | cons b t =>
    rw [noDbl, Bool.and_eq_true]
    refine ⟨?_, hnd⟩
    have := hh b rfl
    by_cases ha : a = ' '
    · by_cases hb : b = ' '
      · exact absurd ⟨ha, hb⟩ this
      · simp [hb]
    · simp [ha]

theorem noDbl_subRuns (p : Char → Bool) (hp : p ' ' = true) :
    ∀ (l : List Char) (b : Bool), noDbl (subRuns p b l) = true := by
  intro l
  induction l with
  | nil => intro b; rfl
  | cons x xs ih =>
    intro b
    rw [subRuns]
    by_cases hx : p x
    · rw [if_pos hx]
      cases b with
      | true => exact ih true
      | false =>
        apply noDbl_cons_build ' ' _ (ih true)
        intro c hc ⟨_, hcs⟩
        have := subRuns_true_head p xs c hc
        rw [hcs] at this
        rw [hp] at this
        exact Bool.noConfusion this
    · rw [if_neg hx]
      apply noDbl_cons_build x _ (ih false)
      intro c _ ⟨hxs, _⟩
      rw [hxs] at hx
      rw [hp] at hx
      exact hx rfl

theorem noDbl_append_right (t l : List Char) (h : noDbl (t ++ l) = true) :
    noDbl l = true := by
  induction t with
  | nil => exact h
  | cons a t' ih => exact ih (noDbl_cons a (t' ++ l) h)

theorem noDbl_append_left (l t : List Char) (h : noDbl (l ++ t) = true) :
    noDbl l = true := by
  induction l with
  | nil => rfl
  | cons a l' ih =>
    cases l' with
    | nil => rfl
    | cons b l'' =>
      rw [List.cons_append, List.cons_append, noDbl, Bool.and_eq_true] at h
      rw [noDbl, Bool.and_eq_true]
      exact ⟨h.1, ih (by rw [List.cons_append]; exact h.2)⟩

theorem noDbl_dropWhile (p : Char → Bool) (l : List Char) (h : noDbl l = true) :
    noDbl (l.dropWhile p) = true := by
  obtain ⟨t, ht⟩ := List.dropWhile_suffix p (l := l)
  rw [← ht] at h
  exact noDbl_append_right t _ h

theorem dropEnd_prefix (p : Char → Bool) (l : List Char) :
    ∃ t, dropEnd p l ++ t = l := by
  obtain ⟨t, ht⟩ := List.dropWhile_suffix p (l := l.reverse)
  refine ⟨t.reverse, ?_⟩
  have := congrArg List.reverse ht
  rw [List.reverse_append, List.reverse_reverse] at this
  rw [dropEnd]
  exact this

theorem noDbl_dropEnd (p : Char → Bool) (l : List Char) (h : noDbl l = true) :
    noDbl (dropEnd p l) = true := by
  obtain ⟨t, ht⟩ := dropEnd_prefix p l
  rw [← ht] at h
  exact noDbl_append_left _ t h

theorem noDbl_stripWith (p : Char → Bool) (l : List Char) (h : noDbl l = true) :
    noDbl (stripWith p l) = true :=
  noDbl_dropEnd p _ (noDbl_dropWhile p l h)

theorem mem_dropEnd (p : Char → Bool) (l : List Char) (c : Char)
    (h : c ∈ dropEnd p l) : c ∈ l := by
  obtain ⟨t, ht⟩ := dropEnd_prefix p l
  rw [← ht]
  exact List.mem_append_left t h

theorem mem_stripWith (p : Char → Bool) (l : List Char) (c : Char)
    (h : c ∈ stripWith p l) : c ∈ l :=
  (List.dropWhile_sublist p).mem (mem_dropEnd p _ c h)

theorem head_dropWhile (p : Char → Bool) :
    ∀ (l : List Char) (c : Char), (l.dropWhile p).head? = some c → p c = false := by
  intro l
  induction l with
  | nil => intro c hc; cases hc
  | cons x xs ih =>
    intro c hc
    by_cases hx : p x
    · rw [List.dropWhile_cons_of_pos hx] at hc
      exact ih c hc
    · rw [List.dropWhile_cons_of_neg hx] at hc
      injection hc with hc
      exact hc ▸ (Bool.not_eq_true _).mp hx

theorem getLast_dropEnd (p : Char → Bool) (l : List Char) (c : Char)
    (h : (dropEnd p l).getLast? = some c) : p c = false := by
  rw [dropEnd, List.getLast?_reverse] at h
  exact head_dropWhile p l.reverse c h

theorem head_dropEnd (p : Char → Bool) (l : List Char) (c : Char)
    (h : (dropEnd p l).head? = some c) : l.head? = some c := by
  obtain ⟨t, ht⟩ := dropEnd_prefix p l
  rw [← ht, List.head?_append, h]
  rfl

theorem head_stripWith (p : Char → Bool) (l : List Char) (c : Char)
    (h : (stripWith p l).head? = some c) : p c = false :=
  head_dropWhile p l c (head_dropEnd p _ c h)

theorem getLast_stripWith (p : Char → Bool) (l : List Char) (c : Char)
    (h : (stripWith p l).getLast? = some c) : p c = false :=
  getLast_dropEnd p _ c h

theorem dropWhile_eq_self (p : Char → Bool) (l : List Char)
    (h : ∀ c, l.head? = some c → p c = false) : l.dropWhile p = l := by
  cases l with
  | nil => rfl
  | cons x xs =>
    exact List.dropWhile_cons_of_neg (by rw [h x rfl]; exact Bool.false_ne_true)

theorem dropEnd_eq_self (p : Char → Bool) (l : List Char)
    (h : ∀ c, l.getLast? = some c → p c = false) : dropEnd p l = l := by
  rw [dropEnd, dropWhile_eq_self p l.reverse
    (fun c hc => h c (by rw [← List.head?_reverse]; exact hc)), List.reverse_reverse]

theorem stripWith_eq_self (p : Char → Bool) (l : List Char)
    (hh : ∀ c, l.head? = some c → p c = false)
    (hl : ∀ c, l.getLast? = some c → p c = false) : stripWith p l = l := by
  rw [stripWith, dropWhile_eq_self p l hh, dropEnd_eq_self p l hl]

theorem flatMap_eq_self (g : Char → List Char) (l : List Char)
    (h : ∀ c ∈ l, g c = [c]) : l.flatMap g = l := by
  induction l with
  | nil => rfl
  | cons x xs ih =>
    rw [List.flatMap_cons, h x (List.mem_cons_self x xs),
      ih (fun c hc => h c (List.mem_cons_of_mem x hc))]
    rfl

theorem subRuns_eq_self_of_none (p : Char → Bool) :
    ∀ (l : List Char) (b : Bool), (∀ c ∈ l, p c = false) → subRuns p b l = l := by
  intro l
  induction l with
  | nil => intro b _; rfl
  | cons x xs ih =>
    intro b h
    rw [subRuns, if_neg (by rw [h x (List.mem_cons_self x xs)]; exact Bool.false_ne_true),
      ih false (fun c hc => h c (List.mem_cons_of_mem x hc))]

theorem subRuns_eq_self_spaces (p : Char → Bool) :
    ∀ (l : List Char) (b : Bool),
      (∀ c ∈ l, p c = decide (c = ' ')) → noDbl l = true →
      (b = true → ∀ c, l.head? = some c → c ≠ ' ') → subRuns p b l = l := by
  intro l
  induction l with
  | nil => intro b _ _ _; rfl
  | cons x xs ih =>
    intro b hch hnd hhd
    by_cases hx : x = ' '
    · cases b with
      | true => exact absurd hx (hhd rfl x rfl)
      | false =>
        have hpx : p x = true := by rw [hch x (List.mem_cons_self x xs), hx]; decide
        rw [subRuns, if_pos hpx, hx]
        have hxs : subRuns p true xs = xs := by
          apply ih true (fun c hc => hch c (List.mem_cons_of_mem x hc))
            (noDbl_cons x xs hnd)
          intro _ c hc hcs
          cases xs with
          | nil => cases hc
          | cons y t =>
            injection hc with hc
            rw [hx] at hnd
            rw [hc, hcs] at hnd
            rw [noDbl] at hnd
            simp at hnd
        rw [hxs]
        simp
    · have hpx : p x = false := by
        rw [hch x (List.mem_cons_self x xs)]
        exact decide_eq_false hx
      rw [subRuns, if_neg (by rw [hpx]; exact Bool.false_ne_true),
        ih false (fun c hc => hch c (List.mem_cons_of_mem x hc)) (noDbl_cons x xs hnd)
          (fun h => Bool.noConfusion h)]

theorem norm_shape (U : UParams) (hr1 : U.rspace ' ' = true) (hs1 : U.sspace ' ' = true)
    (s : List Char) :
    (∀ c ∈ _norm_text U s, goodCh c = true) ∧
    noDbl (_norm_text U s) = true ∧
    (∀ c, (_norm_text U s).head? = some c → c ≠ ' ') ∧
    (∀ c, (_norm_text U s).getLast? = some c → c ≠ ' ') := by
  simp only [_norm_text]
  refine ⟨?_, ?_, ?_, ?_⟩
  · intro c hc
    have hc4 := mem_stripWith _ _ _ hc
    rcases subRuns_mem U.rspace _ _ _ hc4 with h | ⟨hm3, hrs⟩
    · rw [h]; decide
    · rcases subRuns_mem _ _ _ _ hm3 with h | ⟨_, hkp⟩
      · rw [h]; decide
      · have hk : keepCh U c = true := by rwa [Bool.not_eq_false'] at hkp
        rw [keepCh, Bool.or_eq_true] at hk
        rcases hk with h | h
        · rw [goodCh, Bool.or_eq_true]; exact Or.inl h
        · rw [h] at hrs; exact Bool.noConfusion hrs
  · exact noDbl_stripWith _ _ (noDbl_subRuns U.rspace hr1 _ false)
  · intro c hc he
    have := head_stripWith _ _ _ hc
    rw [he, hs1] at this
    exact Bool.noConfusion this
  · intro c hc he
    have := getLast_stripWith _ _ _ hc
    rw [he, hs1] at this
    exact Bool.noConfusion this

theorem norm_fix (U : UParams)
    (hlow : ∀ c, goodCh c = true → U.lower c = c)
    (hnf : ∀ c, goodCh c = true → U.nfkd c = [c])
    (hcomb : ∀ c, goodCh c = true → U.comb c = false)
    (hs2 : ∀ c, isLowerAlnum c = true → U.sspace c = false)
    (hr1 : U.rspace ' ' = true) (hr2 : ∀ c, isLowerAlnum c = true → U.rspace c = false)
    (l : List Char)
    (hg : ∀ c ∈ l, goodCh c = true) (hnd : noDbl l = true)
    (hh : ∀ c, l.head? = some c → c ≠ ' ')
    (hl : ∀ c, l.getLast? = some c → c ≠ ' ') :
    _norm_text U l = l := by
  have hgood_space : ∀ c, goodCh c = true → c ≠ ' ' → isLowerAlnum c = true := by
    intro c hgc hne
    rw [goodCh, Bool.or_eq_true] at hgc
    rcases hgc with h | h
    · exact h
    · exact absurd (by simpa using h) hne
  have h0 : stripWith U.sspace l = l := by
    apply stripWith_eq_self
    · intro c hc
      exact hs2 c (hgood_space c (hg c (List.mem_of_mem_head? hc)) (hh c hc))
    · intro c hc
      exact hs2 c (hgood_space c (hg c (List.mem_of_mem_getLast? hc)) (hl c hc))
  have h1 : l.map U.lower = l := by
    conv_rhs => rw [← List.map_id l]
    exact List.map_eq_map_iff.mpr (fun c hc => hlow c (hg c hc))
  have h2 : l.flatMap U.nfkd = l :=
    flatMap_eq_self _ _ (fun c hc => hnf c (hg c hc))
  have h3 : l.filter (fun c => ! U.comb c) = l := by
    rw [List.filter_eq_self]
    intro c hc
    rw [hcomb c (hg c hc)]
    rfl
  have h4 : subRuns (fun c => ! keepCh U c) false l = l := by
    apply subRuns_eq_self_of_none
    intro c hc
    have hk : keepCh U c = true := by
      have hgc := hg c hc
      rw [goodCh, Bool.or_eq_true] at hgc
      rw [keepCh, Bool.or_eq_true]
      rcases hgc with h | h
      · exact Or.inl h
      · right
        rw [(by simpa using h : c = ' ')]
        exact hr1
    rw [hk]
    rfl
  have h5 : subRuns U.rspace false l = l := by
    apply subRuns_eq_self_spaces U.rspace l false ?_ hnd (fun h => Bool.noConfusion h)
    intro c hc
    have hgc := hg c hc
    rw [goodCh, Bool.or_eq_true] at hgc
    rcases hgc with h | h
    · rw [hr2 c h, decide_eq_false (isLowerAlnum_ne_space c h)]
    · have hce : c = ' ' := by simpa using h
      rw [hce, hr1]
      decide
  show stripWith U.sspace (subRuns U.rspace false (subRuns (fun c => ! keepCh U c) false
      ((((stripWith U.sspace l).map U.lower).flatMap U.nfkd).filter
        (fun c => ! U.comb c)))) = l
  rw [h0, h1, h2, h3, h4, h5, h0]

/-- Claim C2: the Text Normalizer is idempotent. `_norm_text` is stated over
the Unicode primitives it uses (`str.lower`, NFKD decomposition, combining
test, the two whitespace classes); the hypotheses are exactly the standard
facts those primitives satisfy on the normalizer's ASCII output alphabet
`[a-z0-9 ]`: lowercasing, decomposition and combining-mark removal fix those
characters, the space is whitespace, and alphanumerics are not whitespace.
Under them, `normalize(normalize(s)) = normalize(s)` for every string `s`. -/
theorem claim_C2_norm_idempotent (U : UParams)
    (hlow : ∀ c, goodCh c = true → U.lower c = c)
    (hnf : ∀ c, goodCh c = true → U.nfkd c = [c])
    (hcomb : ∀ c, goodCh c = true → U.comb c = false)
    (hs1 : U.sspace ' ' = true) (hs2 : ∀ c, isLowerAlnum c = true → U.sspace c = false)
    (hr1 : U.rspace ' ' = true) (hr2 : ∀ c, isLowerAlnum c = true → U.rspace c = false)
    (s : List Char) :
    _norm_text U (_norm_text U s) = _norm_text U s := by
  obtain ⟨hg, hnd, hh, hl⟩ := norm_shape U hr1 hs1 s
  exact norm_fix U hlow hnf hcomb hs2 hr1 hr2 _ hg hnd hh hl

/-- Witness for C2: concrete idempotence at `" alcohol  70 "` under the
ASCII instantiation of the Unicode primitives, which satisfies every
hypothesis definitionally. -/
theorem claim_C2_witness :
    _norm_text asciiU (_norm_text asciiU " alcohol  70 ".toList) =
      _norm_text asciiU " alcohol  70 ".toList :=
  claim_C2_norm_idempotent asciiU (fun _ _ => rfl) (fun _ _ => rfl) (fun _ _ => rfl)
    (by decide) (fun c h => decide_eq_false (isLowerAlnum_ne_space c h))
    (by decide) (fun c h => decide_eq_false (isLowerAlnum_ne_space c h))
    " alcohol  70 ".toList
